import Mathlib

/-!
Verification of `src/metrics/centrality/betweenness.js` (graphology
betweenness centrality): a shallow embedding of the two Brandes
accumulators (node and edge variants), their option resolution,
validation, delta reset, backward dependency accumulation and rescaling,
together with theorems settling the specification claims.

JavaScript numbers are modelled as rationals (ℚ); the dense typed arrays
(`Float64Array`) are modelled as total functions `ℕ → ℚ` with writes
guarded by the array length (out-of-range typed-array writes are silent
no-ops in JavaScript); the plain-object edge-centrality store is
modelled as a function from JavaScript property keys to an optional
stored value, where the key space is `Option ℕ` (`none` standing for the
"undefined" property key produced when an edge lookup fails) and a
stored `none` stands for a non-numeric (NaN) value.
-/

/-- Directedness flag of a graphology instance (`graph.type`). -/
inductive GraphType
  | mixed
  | directed
  | undirected
deriving DecidableEq

/-- Graph handle: the capabilities of a graphology instance that the
betweenness module uses. `order` is the node count, `nodes` the dense
index-to-key mapping maintained by the brandes index, `edges` the
enumeration order of `graph.forEachEdge`, and `edge` the
`graph.edge(source, target)` lookup returning an edge key or absence. -/
structure GraphHandle where
  order : ℕ
  type : GraphType
  nodes : ℕ → ℕ
  edges : List ℕ
  edge : ℕ → ℕ → Option ℕ

/-- A JavaScript value passed as the `graph` argument: either an actual
graphology instance or some other value. -/
inductive JSInput
  | graph (g : GraphHandle)
  | nonGraph (tag : ℕ)

/-- Modelled from the spec: the validation predicate of
`graphology-utils/is-graph` (external to src), recognising exactly the
values that satisfy the graph capability contract. -/
def isGraph : JSInput → Bool
  | .graph _ => true
  | .nonGraph _ => false

/-- The `getEdgeWeight` option as supplied by the caller: the key can be
absent from the options object, explicitly `null`, a string attribute
name, or an accessor function. -/
inductive JSWeight
  | absent
  | null
  | attr (s : String)
  | accessor
deriving DecidableEq

/-- JavaScript truthiness of a `getEdgeWeight` value (`undefined` and
`null` are falsy, a string is truthy unless empty, a function is
truthy). -/
def JSWeight.truthy : JSWeight → Bool
  | .absent => false
  | .null => false
  | .attr s => s ≠ ""
  | .accessor => true

/-- An optional plain option value: either absent from the options
object or given by the caller. -/
inductive JSOpt (α : Type)
  | absent
  | given (a : α)
deriving DecidableEq

/-- Caller-supplied options object for either accumulator
(`nodeCentralityAttribute` and `edgeCentralityAttribute` both map to the
`centralityAttribute` field of the variant being called). -/
structure InputOptions where
  centralityAttribute : JSOpt String
  getEdgeWeight : JSWeight
  normalized : JSOpt Bool

/-- Fully resolved options, after defaults are applied. -/
structure ResolvedOptions where
  centralityAttribute : String
  getEdgeWeight : JSWeight
  normalized : Bool
deriving DecidableEq

/-- `DEFAULTS_NODE` of the source module. -/
def DEFAULTS_NODE : ResolvedOptions where
  centralityAttribute := "nodeBetweennessCentrality"
  getEdgeWeight := .attr "weight"
  normalized := true

/-- `DEFAULTS_EDGE` of the source module. -/
def DEFAULTS_EDGE : ResolvedOptions where
  centralityAttribute := "edgeBetweennessCentrality"
  getEdgeWeight := .attr "weight"
  normalized := true

/-- Modelled from the spec: the options-with-defaults resolution of
`graphology-utils/defaults` (external to src) — every field absent from
the caller options takes the stated default, every field the caller
supplied (even a falsy one such as `null`) is kept. -/
def resolveDefaults (o : InputOptions) (defaults : ResolvedOptions) : ResolvedOptions where
  centralityAttribute :=
    match o.centralityAttribute with
    | .absent => defaults.centralityAttribute
    | .given s => s
  getEdgeWeight :=
    match o.getEdgeWeight with
    | .absent => defaults.getEdgeWeight
    | w => w
  normalized :=
    match o.normalized with
    | .absent => defaults.normalized
    | .given b => b

/-- The two interchangeable shortest-path indexer strategies. -/
inductive Strategy
  | unweighted
  | dijkstra
deriving DecidableEq

/-- Strategy selection of the source (`options.getEdgeWeight ?
createDijkstraIndexedBrandes(graph, options.getEdgeWeight) :
createUnweightedIndexedBrandes(graph)`): the weighted strategy exactly
when the resolved weight accessor is truthy. -/
def chosenStrategy (o : InputOptions) (defaults : ResolvedOptions) : Strategy :=
  if (resolveDefaults o defaults).getEdgeWeight.truthy then .dijkstra else .unweighted

/-- Traversal result returned by the indexed Brandes routine for one
source: the underlying storage of the stack `S` (`sItems`, of length
equal to its capacity, with `sSize` live entries at positions
`0..sSize-1`, popped from position `sSize-1` downwards), the
predecessor lists `P` and the path counts `sigma`. -/
structure Traversal where
  sItems : List ℕ
  sSize : ℕ
  P : ℕ → List ℕ
  sigma : ℕ → ℚ

/-- Typed-array write `a[k] = v` on a `Float64Array` of length `order`:
out-of-range writes are silent no-ops. -/
def updTA (order : ℕ) (a : ℕ → ℚ) (k : ℕ) (v : ℚ) : ℕ → ℚ :=
  if k < order then (fun x => if x = k then v else a x) else a

/-- The delta-reset loop of both accumulators, translated literally from
`j = S.size; while (j--) delta[S.items[S.size - j]] = 0;` — the loop
variable `j` runs from `S.size - 1` down to `0`, so the accessed
positions are `S.size - j`, i.e. `1, 2, ..., S.size`; a read past the
length of `items` yields `undefined` and the corresponding write is a
no-op on the numeric entries of `delta`. -/
def resetDelta (order : ℕ) (items : List ℕ) (size : ℕ) (delta : ℕ → ℚ) : ℕ → ℚ :=
  (List.range size).reverse.foldl
    (fun d j =>
      match items.get? (size - j) with
      | some idx => updTA order d idx 0
      | none => d)
    delta

/-- Body of the predecessor loop of the node accumulator:
`delta[v] += sigma[v] * coefficient`. -/
def nodePredBody (order : ℕ) (sigma : ℕ → ℚ) (coefficient : ℚ)
    (delta : ℕ → ℚ) (v : ℕ) : ℕ → ℚ :=
  updTA order delta v (delta v + sigma v * coefficient)

/-- One iteration of the node-accumulator backward `while` loop, for the
popped node `w`: state is the pair `(delta, centralities)`. -/
def nodeStep (order i : ℕ) (P : ℕ → List ℕ) (sigma : ℕ → ℚ)
    (st : (ℕ → ℚ) × (ℕ → ℚ)) (w : ℕ) : (ℕ → ℚ) × (ℕ → ℚ) :=
  let coefficient := (1 + st.1 w) / sigma w
  let delta := (P w).foldl (nodePredBody order sigma coefficient) st.1
  let centralities :=
    if w ≠ i then updTA order st.2 w (st.2 w + delta w) else st.2
  (delta, centralities)

/-- The backward `while (S.size !== 0)` loop of the node accumulator,
consuming the pop order of `S` front-first. -/
def nodeBackward (order i : ℕ) (P : ℕ → List ℕ) (sigma : ℕ → ℚ) :
    List ℕ → (ℕ → ℚ) × (ℕ → ℚ) → (ℕ → ℚ) × (ℕ → ℚ)
  | [], st => st
  | w :: rest, st => nodeBackward order i P sigma rest (nodeStep order i P sigma st w)

/-- Pop order of the stack `S`: positions `sSize - 1` down to `0` of its
storage. -/
def popOrder (t : Traversal) : List ℕ :=
  (t.sItems.take t.sSize).reverse

/-- The source loop of the node accumulator: `delta` and `centralities`
allocated (zeroed) once, then for every source index the traversal is
obtained, `delta` is reset by the reset loop, and the backward loop
runs. Returns the final `(delta, centralities)` pair. -/
def nodeSums (g : GraphHandle) (brandes : ℕ → Traversal) : (ℕ → ℚ) × (ℕ → ℚ) :=
  (List.range g.order).foldl
    (fun st i =>
      let t := brandes i
      let delta := resetDelta g.order t.sItems t.sSize st.1
      nodeBackward g.order i t.P t.sigma (popOrder t) (delta, st.2))
    (fun _ => 0, fun _ => 0)

/-- The rescaling loop `for (i = 0; i < N; i++) centralities[i] *= scale`. -/
def nodeScaleLoop (order : ℕ) (s : ℚ) (cent : ℕ → ℚ) : ℕ → ℚ :=
  (List.range order).foldl (fun a i => updTA order a i (a i * s)) cent

/-- Accumulation plus rescaling of the node accumulator (everything
between option resolution and the result projector). -/
def nodeCore (g : GraphHandle) (brandes : ℕ → Traversal) (normalized : Bool) : ℕ → ℚ :=
  let centralities := (nodeSums g brandes).2
  let scale : Option ℚ :=
    if normalized then
      if g.order ≤ 2 then none
      else some (1 / (((g.order : ℚ) - 1) * ((g.order : ℚ) - 2)))
    else if g.type = GraphType.undirected then some (1 / 2)
    else none
  match scale with
  | some s => nodeScaleLoop g.order s centralities
  | none => centralities

/-- A JavaScript numeric slot of the edge-centrality object: `none`
stands for a non-numeric value (NaN, produced by arithmetic on
`undefined`). -/
abbrev JSNum := Option ℚ

/-- The plain-object store `edgeCentralities`: property keys are edge
keys (`some e`) or the "undefined" key (`none`); an absent property
reads as `none`. -/
abbrev EdgeMap := Option ℕ → Option JSNum

/-- Property write `m[k] = v` on a plain object. -/
def objSet (m : EdgeMap) (k : Option ℕ) (v : JSNum) : EdgeMap :=
  fun x => if x = k then some v else m x

/-- Compound assignment `m[k] += c` on a plain object: reading an absent
property yields `undefined`, and both `undefined + c` and `NaN + c` are
NaN. -/
def addAssign (m : EdgeMap) (k : Option ℕ) (c : ℚ) : EdgeMap :=
  objSet m k
    (match m k with
     | some (some x) => some (x + c)
     | _ => none)

/-- Initialization loop `graph.forEachEdge(edge => edgeCentralities[edge] = 0.0)`
run on the empty object. -/
def initEdgeCentralities (g : GraphHandle) : EdgeMap :=
  g.edges.foldl (fun m e => objSet m (some e) (some 0)) (fun _ => none)

/-- Body of the predecessor loop of the edge accumulator, translated
from the source: `c = sigma[v] * coefficient; vw = graph.edge(nodes[v],
nodes[w]); wv = graph.edge(nodes[w], nodes[v]); if (vw === undefined)
edgeCentralities[wv] += c; else edgeCentralities[vw] += c;
delta[v] += c;`. State is the pair `(delta, edgeCentralities)`. -/
def edgePredBody (g : GraphHandle) (sigma : ℕ → ℚ) (coefficient : ℚ) (w : ℕ)
    (st : (ℕ → ℚ) × EdgeMap) (v : ℕ) : (ℕ → ℚ) × EdgeMap :=
  let c := sigma v * coefficient
  let vw := g.edge (g.nodes v) (g.nodes w)
  let wv := g.edge (g.nodes w) (g.nodes v)
  let edgeCentralities :=
    if vw = none then addAssign st.2 wv c else addAssign st.2 vw c
  (updTA g.order st.1 v (st.1 v + c), edgeCentralities)

/-- Reformulation following the words of the spec, for comparison with
`edgePredBody`: compute the partial contribution `c`, resolve the edge
by looking up `edge(v, w)` and falling back to `edge(w, v)` when
absent, attribute `c` to the resolved edge, and add `c` to `delta[v]`
exactly as the node accumulator does. -/
def specEdgePredStep (g : GraphHandle) (sigma : ℕ → ℚ) (coefficient : ℚ) (w : ℕ)
    (st : (ℕ → ℚ) × EdgeMap) (v : ℕ) : (ℕ → ℚ) × EdgeMap :=
  let c := sigma v * coefficient
  let resolved :=
    match g.edge (g.nodes v) (g.nodes w) with
    | some e => some e
    | none => g.edge (g.nodes w) (g.nodes v)
  (updTA g.order st.1 v (st.1 v + c), addAssign st.2 resolved c)

/-- One iteration of the edge-accumulator backward `while` loop for the
popped node `w` (the edge accumulator never credits `delta[w]` to the
popped node itself). -/
def edgeStep (g : GraphHandle) (P : ℕ → List ℕ) (sigma : ℕ → ℚ)
    (st : (ℕ → ℚ) × EdgeMap) (w : ℕ) : (ℕ → ℚ) × EdgeMap :=
  let coefficient := (1 + st.1 w) / sigma w
  (P w).foldl (edgePredBody g sigma coefficient w) st

/-- The backward `while` loop of the edge accumulator. -/
def edgeBackward (g : GraphHandle) (P : ℕ → List ℕ) (sigma : ℕ → ℚ) :
    List ℕ → (ℕ → ℚ) × EdgeMap → (ℕ → ℚ) × EdgeMap
  | [], st => st
  | w :: rest, st => edgeBackward g P sigma rest (edgeStep g P sigma st w)

/-- One source iteration of the edge accumulator: obtain the traversal,
reset `delta`, run the backward loop. -/
def edgeSourceIter (g : GraphHandle) (brandes : ℕ → Traversal)
    (st : (ℕ → ℚ) × EdgeMap) (i : ℕ) : (ℕ → ℚ) × EdgeMap :=
  let t := brandes i
  let delta := resetDelta g.order t.sItems t.sSize st.1
  edgeBackward g t.P t.sigma (popOrder t) (delta, st.2)

/-- The source loop of the edge accumulator: every edge centrality is
initialized to `0.0` before any source iteration, then each source
resets `delta` and runs the backward loop. -/
def edgeTotals (g : GraphHandle) (brandes : ℕ → Traversal) : (ℕ → ℚ) × EdgeMap :=
  (List.range g.order).foldl (edgeSourceIter g brandes)
    (fun _ => 0, initEdgeCentralities g)

/-- Body of the edge rescaling loop: `edgeCentralities[edge] *= scale`
(a read-modify-write; multiplying a non-numeric value stays
non-numeric). -/
def edgeScaleBody (s : ℚ) (m : EdgeMap) (e : ℕ) : EdgeMap :=
  objSet m (some e)
    (match m (some e) with
     | some (some x) => some (x * s)
     | _ => none)

/-- The rescaling loop `graph.forEachEdge(edge => edgeCentralities[edge] *= scale)`. -/
def edgeScaleLoop (g : GraphHandle) (s : ℚ) (m : EdgeMap) : EdgeMap :=
  g.edges.foldl (edgeScaleBody s) m

/-- Accumulation plus rescaling of the edge accumulator. -/
def edgeCore (g : GraphHandle) (brandes : ℕ → Traversal) (normalized : Bool) : EdgeMap :=
  let totals := (edgeTotals g brandes).2
  let scale : Option ℚ :=
    if normalized then
      if g.order ≤ 1 then none
      else some (1 / ((g.order : ℚ) * ((g.order : ℚ) - 1)))
    else if g.type = GraphType.undirected then some (1 / 2)
    else none
  match scale with
  | some s => edgeScaleLoop g s totals
  | none => totals

/-- Error message thrown by both accumulators on invalid input. -/
def invalidGraphMessage : String :=
  "graphology-centrality/beetweenness-centrality: the given graph is not a valid graphology instance."

/-- Result of the node variant: either the collected index-to-value
mapping or the per-node attribute assignment under the configured
attribute name. -/
inductive NodeResult
  | collected (centralities : ℕ → ℚ)
  | assigned (attrName : String) (centralities : ℕ → ℚ)

/-- Result of the edge variant. -/
inductive EdgeResult
  | collected (edgeCentralities : EdgeMap)
  | assigned (attrName : String) (edgeCentralities : EdgeMap)

/-- `abstractBetweennessCentrality` of the source: validation, option
resolution against `DEFAULTS_NODE`, strategy selection, accumulation,
rescaling, projection. The indexer constructors are the external
collaborators and are taken as parameters; the `nonGraph` branch of the
inner match is unreachable because `isGraph` accepts only graph
handles. -/
def abstractBetweennessCentrality (assign : Bool) (input : JSInput) (o : InputOptions)
    (createUnweightedIndexedBrandes : GraphHandle → ℕ → Traversal)
    (createDijkstraIndexedBrandes : GraphHandle → JSWeight → ℕ → Traversal) :
    Except String NodeResult :=
  if isGraph input = false then .error invalidGraphMessage
  else
    match input with
    | .nonGraph _ => .error invalidGraphMessage
    | .graph graph =>
      let options := resolveDefaults o DEFAULTS_NODE
      let outputName := options.centralityAttribute
      let normalized := options.normalized
      let brandes :=
        match chosenStrategy o DEFAULTS_NODE with
        | .dijkstra => createDijkstraIndexedBrandes graph options.getEdgeWeight
        | .unweighted => createUnweightedIndexedBrandes graph
      let centralities := nodeCore graph brandes normalized
      .ok
        (if assign then NodeResult.assigned outputName centralities
         else NodeResult.collected centralities)

/-- `abstractEdgeBetweennessCentrality` of the source. -/
def abstractEdgeBetweennessCentrality (assign : Bool) (input : JSInput) (o : InputOptions)
    (createUnweightedIndexedBrandes : GraphHandle → ℕ → Traversal)
    (createDijkstraIndexedBrandes : GraphHandle → JSWeight → ℕ → Traversal) :
    Except String EdgeResult :=
  if isGraph input = false then .error invalidGraphMessage
  else
    match input with
    | .nonGraph _ => .error invalidGraphMessage
    | .graph graph =>
      let options := resolveDefaults o DEFAULTS_EDGE
      let outputName := options.centralityAttribute
      let normalized := options.normalized
      let brandes :=
        match chosenStrategy o DEFAULTS_EDGE with
        | .dijkstra => createDijkstraIndexedBrandes graph options.getEdgeWeight
        | .unweighted => createUnweightedIndexedBrandes graph
      let edgeCentralities := edgeCore graph brandes normalized
      .ok
        (if assign then EdgeResult.assigned outputName edgeCentralities
         else EdgeResult.collected edgeCentralities)

/-- `betweennessCentrality` (collect variant). -/
def betweennessCentrality := abstractBetweennessCentrality false

/-- `betweennessCentrality.assign`. -/
def betweennessCentrality.assign := abstractBetweennessCentrality true

/-- `edgeBetweennessCentrality` (collect variant). -/
def edgeBetweennessCentrality := abstractEdgeBetweennessCentrality false

/-- `edgeBetweennessCentrality.assign`. -/
def edgeBetweennessCentrality.assign := abstractEdgeBetweennessCentrality true

/-!
Concrete instances used by witnesses and counterexamples.
-/

/-- The undirected path graph on nodes `0 - 1 - 2`, with edge keys `0`
(between nodes 0 and 1) and `1` (between nodes 1 and 2). -/
def pathGraph3 : GraphHandle where
  order := 3
  type := .undirected
  nodes := fun k => k
  edges := [0, 1]
  edge := fun a b =>
    if (a = 0 ∧ b = 1) ∨ (a = 1 ∧ b = 0) then some 0
    else if (a = 1 ∧ b = 2) ∨ (a = 2 ∧ b = 1) then some 1
    else none

/-- Modelled from the spec: valid unweighted traversal data (settled
order, predecessor lists, path counts) for `pathGraph3`, as the
external shortest-path indexer produces them. -/
def pathBrandes3 : ℕ → Traversal := fun i =>
  if i = 0 then
    ⟨[0, 1, 2], 3,
      fun w => if w = 1 then [0] else if w = 2 then [1] else [],
      fun _ => 1⟩
  else if i = 1 then
    ⟨[1, 0, 2], 3,
      fun w => if w = 0 then [1] else if w = 2 then [1] else [],
      fun _ => 1⟩
  else
    ⟨[2, 1, 0], 3,
      fun w => if w = 1 then [2] else if w = 0 then [1] else [],
      fun _ => 1⟩

/-- A directed graph on two nodes carrying both orientations of an edge
pair: edge key `7` from node 0 to node 1 and edge key `8` from node 1
to node 0. -/
def twoWayGraph : GraphHandle where
  order := 2
  type := .directed
  nodes := fun k => k
  edges := [7, 8]
  edge := fun a b =>
    if a = 0 ∧ b = 1 then some 7
    else if a = 1 ∧ b = 0 then some 8
    else none

/-- Predecessor lists used by the C2 witness: node 1 has the single
predecessor 0. -/
def wPreds : ℕ → List ℕ := fun w => if w = 1 then [0] else []

/-- Constant-one path counts used by witnesses. -/
def wOnes : ℕ → ℚ := fun _ => 1

/-- All-zero dense array used by witnesses. -/
def wZero : ℕ → ℚ := fun _ => 0

/-- Empty edge-centrality object used by witnesses. -/
def wEmpty : EdgeMap := fun _ => none

/-- The edge-centrality store holds a numeric value at the key of edge
`e`. -/
def numericAt (m : EdgeMap) (e : ℕ) : Prop :=
  ∃ q : ℚ, m (some e) = some (some q)

/-!
Helper lemmas.
-/

/-- An in-range typed-array write is a pointwise update. -/
lemma updTA_of_lt (order : ℕ) (a : ℕ → ℚ) (k : ℕ) (v : ℚ) (h : k < order) :
    updTA order a k v = fun x => if x = k then v else a x := by
  simp [updTA, h]

/-- The predecessor loop of the node accumulator adds
`sigma[v] * coefficient` to `delta[v]` once per occurrence of `v` in
the predecessor list. -/
lemma foldl_nodePredBody_eq (order : ℕ) (sigma : ℕ → ℚ) (coefficient : ℚ) :
    ∀ (l : List ℕ) (delta : ℕ → ℚ), (∀ v ∈ l, v < order) →
      l.foldl (nodePredBody order sigma coefficient) delta
        = fun v => delta v + (l.count v : ℚ) * (sigma v * coefficient) := by
  intro l
  induction l with
  | nil =>
    intro delta _
    funext v
    simp
  | cons a t ih =>
    intro delta h
    have ha : a < order := h a (List.mem_cons_self a t)
    have ht : ∀ v ∈ t, v < order := fun v hv => h v (List.mem_cons_of_mem a hv)
    simp only [List.foldl_cons]
    rw [ih _ ht]
    funext v
    simp only [nodePredBody, updTA_of_lt order delta a _ ha]
    by_cases hv : v = a
    · subst hv
      simp only [if_pos rfl, List.count_cons_self]
      push_cast
      ring
    · simp only [if_neg hv, List.count_cons_of_ne hv]

/-- Property reads at other keys are unaffected by `addAssign`. -/
lemma addAssign_apply_ne (m : EdgeMap) (k k2 : Option ℕ) (c : ℚ) (h : k2 ≠ k) :
    addAssign m k c k2 = m k2 := by
  simp [addAssign, objSet, h]

/-!
Claim theorems.
-/

/-- C2: in the node accumulator backward pass, nodes are popped from `S`
in order (the head of the remaining pop order is processed first); for
the popped node `w` the coefficient equals `(1 + delta[w]) / sigma[w]`;
every predecessor `v` in `P[w]` has `sigma[v] * coefficient` added to
`delta[v]` (once per occurrence); and `delta[w]` (as left by the
predecessor loop) is added to `centralities[w]` exactly when `w` is not
the source `i`. -/
theorem nodeBackward_step_spec (order i : ℕ) (P : ℕ → List ℕ) (sigma : ℕ → ℚ)
    (delta cent : ℕ → ℚ) (w : ℕ) (rest : List ℕ)
    (hw : w < order) (hP : ∀ v ∈ P w, v < order) :
    nodeBackward order i P sigma (w :: rest) (delta, cent) =
      nodeBackward order i P sigma rest
        (fun v => delta v + ((P w).count v : ℚ) * (sigma v * ((1 + delta w) / sigma w)),
         fun x =>
           if x = w ∧ w ≠ i then
             cent x + (delta w + ((P w).count w : ℚ) * (sigma w * ((1 + delta w) / sigma w)))
           else cent x) := by
  show nodeBackward order i P sigma rest (nodeStep order i P sigma (delta, cent) w) = _
  apply congrArg
  have hd : (P w).foldl (nodePredBody order sigma ((1 + delta w) / sigma w)) delta
      = fun v => delta v + ((P w).count v : ℚ) * (sigma v * ((1 + delta w) / sigma w)) :=
    foldl_nodePredBody_eq order sigma _ (P w) delta hP
  simp only [nodeStep, hd]
  refine Prod.ext rfl ?_
  by_cases hwi : w = i
  · subst hwi
    funext x
    simp
  · simp only [if_pos (show w ≠ i from hwi), updTA_of_lt order cent w _ hw]
    funext x
    by_cases hx : x = w
    · subst hx
      simp [hwi]
    · simp [hx]

/-- Witness for the C2 theorem at a concrete instance: popping node 1
(predecessor 0, unit path counts) from source 0. -/
theorem nodeBackward_step_spec_witness :
    (1 < 2) ∧ (∀ v ∈ wPreds 1, v < 2) ∧
      nodeBackward 2 0 wPreds wOnes [1] (wZero, wZero) =
        nodeBackward 2 0 wPreds wOnes []
          (fun v => wZero v + ((wPreds 1).count v : ℚ) * (wOnes v * ((1 + wZero 1) / wOnes 1)),
           fun x =>
             if x = 1 ∧ (1 : ℕ) ≠ 0 then
               wZero x + (wZero 1 + ((wPreds 1).count 1 : ℚ) * (wOnes 1 * ((1 + wZero 1) / wOnes 1)))
             else wZero x) :=
  ⟨by decide, by decide,
    nodeBackward_step_spec 2 0 wPreds wOnes wZero wZero 1 [] (by decide) (by decide)⟩

/-- C3: the per-predecessor body of the edge accumulator computes the
contribution `c = sigma[v] * coefficient`, attributes it to the edge
found by `edge(v, w)` with fallback to `edge(w, v)` when the former is
absent, and adds `c` to `delta[v]` by exactly the node-accumulator
predecessor update. -/
theorem edgePredBody_matches_spec (g : GraphHandle) (sigma : ℕ → ℚ) (coefficient : ℚ)
    (w : ℕ) (st : (ℕ → ℚ) × EdgeMap) (v : ℕ) :
    edgePredBody g sigma coefficient w st v = specEdgePredStep g sigma coefficient w st v
    ∧ (edgePredBody g sigma coefficient w st v).1
        = nodePredBody g.order sigma coefficient st.1 v := by
  constructor
  · unfold edgePredBody specEdgePredStep
    cases h : g.edge (g.nodes v) (g.nodes w) <;> simp [h]
  · rfl

/-- C10: when both orientations exist between predecessor `v` and popped
node `w`, the contribution is attributed to `edge(v, w)` and the
reverse edge receives nothing from that step. -/
theorem edgePredBody_prefers_forward_edge (g : GraphHandle) (sigma : ℕ → ℚ)
    (coefficient : ℚ) (w v : ℕ) (st : (ℕ → ℚ) × EdgeMap) (e e2 : ℕ)
    (hvw : g.edge (g.nodes v) (g.nodes w) = some e)
    (hwv : g.edge (g.nodes w) (g.nodes v) = some e2)
    (hne : e2 ≠ e) :
    (edgePredBody g sigma coefficient w st v).2
        = addAssign st.2 (some e) (sigma v * coefficient)
    ∧ (edgePredBody g sigma coefficient w st v).2 (some e2) = st.2 (some e2) := by
  have h1 : (edgePredBody g sigma coefficient w st v).2
      = addAssign st.2 (some e) (sigma v * coefficient) := by
    unfold edgePredBody
    simp [hvw]
  refine ⟨h1, ?_⟩
  rw [h1]
  exact addAssign_apply_ne _ _ _ _ (by simp [hne])

/-- The node rescaling fold multiplies each entry listed once, when the
index list has no duplicates. -/
lemma foldl_scale_nodup (order : ℕ) (s : ℚ) :
    ∀ (l : List ℕ) (a : ℕ → ℚ), l.Nodup → (∀ j ∈ l, j < order) →
      ∀ k, l.foldl (fun a i => updTA order a i (a i * s)) a k
        = if k ∈ l then a k * s else a k := by
  intro l
  induction l with
  | nil =>
    intro a _ _ k
    simp
  | cons b t ih =>
    intro a hnd h k
    have hb : b < order := h b (List.mem_cons_self b t)
    have ht : ∀ j ∈ t, j < order := fun j hj => h j (List.mem_cons_of_mem b hj)
    have hbt : b ∉ t := (List.nodup_cons.mp hnd).1
    have hndt : t.Nodup := (List.nodup_cons.mp hnd).2
    simp only [List.foldl_cons]
    rw [ih _ hndt ht k, updTA_of_lt order a b _ hb]
    by_cases hk : k = b
    · subst hk
      simp [hbt]
    · by_cases hkt : k ∈ t <;> simp [hk, hkt]

/-- The node rescaling loop multiplies every in-range entry by the
scale. -/
lemma nodeScaleLoop_apply (order : ℕ) (s : ℚ) (cent : ℕ → ℚ) (k : ℕ) (hk : k < order) :
    nodeScaleLoop order s cent k = cent k * s := by
  unfold nodeScaleLoop
  rw [foldl_scale_nodup order s (List.range order) cent (List.nodup_range order)
      (fun j hj => List.mem_range.mp hj) k]
  simp [List.mem_range, hk]

/-- Characterization of the node accumulator output: accumulated sums
times the scale factor the code selects (written as a total factor,
with factor 1 where the code leaves values unscaled). -/
lemma nodeCore_eq_sums_mul (g : GraphHandle) (brandes : ℕ → Traversal) (normalized : Bool)
    (k : ℕ) (hk : k < g.order) :
    nodeCore g brandes normalized k =
      (nodeSums g brandes).2 k *
        (if normalized then
           if 2 < g.order then 1 / (((g.order : ℚ) - 1) * ((g.order : ℚ) - 2)) else 1
         else if g.type = GraphType.undirected then (1 / 2 : ℚ) else 1) := by
  unfold nodeCore
  cases normalized with
  | false =>
    by_cases hu : g.type = GraphType.undirected
    · simp only [Bool.false_eq_true, if_false, if_pos hu]
      rw [nodeScaleLoop_apply _ _ _ _ hk]
    · simp [hu]
  | true =>
    by_cases h2 : g.order ≤ 2
    · simp [h2, show ¬(2 < g.order) by omega]
    · simp [h2, show 2 < g.order by omega, nodeScaleLoop_apply g.order _ _ k hk]

/-- Witness for the C10 theorem on `twoWayGraph`, where both
orientations between nodes 0 and 1 exist (edge keys 7 and 8). -/
theorem edgePredBody_prefers_forward_edge_witness :
    (twoWayGraph.edge (twoWayGraph.nodes 0) (twoWayGraph.nodes 1) = some 7)
    ∧ (twoWayGraph.edge (twoWayGraph.nodes 1) (twoWayGraph.nodes 0) = some 8)
    ∧ (8 ≠ 7)
    ∧ ((edgePredBody twoWayGraph wOnes 1 1 (wZero, wEmpty) 0).2
          = addAssign wEmpty (some 7) (wOnes 0 * 1)
        ∧ (edgePredBody twoWayGraph wOnes 1 1 (wZero, wEmpty) 0).2 (some 8)
            = wEmpty (some 8)) :=
  ⟨by decide, by decide, by decide,
    edgePredBody_prefers_forward_edge twoWayGraph wOnes 1 1 0 (wZero, wEmpty) 7 8
      (by decide) (by decide) (by decide)⟩

/-- C4: node betweenness rescaling — when normalized, every entry is
multiplied by `1 / ((N-1)(N-2))` if `N > 2` and left unscaled
otherwise; when raw, every entry is multiplied by `0.5` if the graph is
undirected and left unscaled otherwise. -/
theorem nodeCore_rescale_spec (g : GraphHandle) (brandes : ℕ → Traversal) (normalized : Bool)
    (k : ℕ) (hk : k < g.order) :
    nodeCore g brandes normalized k =
      (nodeSums g brandes).2 k *
        (if normalized then
           if 2 < g.order then 1 / (((g.order : ℚ) - 1) * ((g.order : ℚ) - 2)) else 1
         else if g.type = GraphType.undirected then (1 / 2 : ℚ) else 1) :=
  nodeCore_eq_sums_mul g brandes normalized k hk

/-- Witness for the C4 theorem on the concrete path graph. -/
theorem nodeCore_rescale_spec_witness :
    (0 < pathGraph3.order) ∧
      nodeCore pathGraph3 pathBrandes3 true 0 =
        (nodeSums pathGraph3 pathBrandes3).2 0 *
          (if (true : Bool) then
             if 2 < pathGraph3.order then
               1 / (((pathGraph3.order : ℚ) - 1) * ((pathGraph3.order : ℚ) - 2))
             else 1
           else if pathGraph3.type = GraphType.undirected then (1 / 2 : ℚ) else 1) :=
  ⟨by decide, nodeCore_rescale_spec pathGraph3 pathBrandes3 true 0 (by decide)⟩

/-- C1 counterexample: when the caller supplies no `getEdgeWeight`, the
resolved configuration carries the default accessor `weight` (not the
absence of one) and the Dijkstra strategy (not the unweighted one) is
selected, for both the node and the edge variant. -/
theorem default_weight_counterexample :
    (resolveDefaults ⟨.absent, .absent, .absent⟩ DEFAULTS_NODE).getEdgeWeight
        = JSWeight.attr "weight"
    ∧ (resolveDefaults ⟨.absent, .absent, .absent⟩ DEFAULTS_EDGE).getEdgeWeight
        = JSWeight.attr "weight"
    ∧ chosenStrategy ⟨.absent, .absent, .absent⟩ DEFAULTS_NODE ≠ Strategy.unweighted
    ∧ chosenStrategy ⟨.absent, .absent, .absent⟩ DEFAULTS_EDGE ≠ Strategy.unweighted := by
  refine ⟨rfl, rfl, ?_, ?_⟩ <;> decide

/-- C1 (amended): with no caller-supplied `getEdgeWeight`, both variants
resolve the accessor to the default attribute name `weight` and select
the weighted (Dijkstra) strategy; the unweighted strategy is selected
exactly when the resolved accessor is falsy (an explicitly supplied
`null`, or an empty attribute name). -/
theorem default_weight_selects_dijkstra (o o2 : InputOptions)
    (h : o.getEdgeWeight = JSWeight.absent) :
    (resolveDefaults o DEFAULTS_NODE).getEdgeWeight = JSWeight.attr "weight"
    ∧ (resolveDefaults o DEFAULTS_EDGE).getEdgeWeight = JSWeight.attr "weight"
    ∧ chosenStrategy o DEFAULTS_NODE = Strategy.dijkstra
    ∧ chosenStrategy o DEFAULTS_EDGE = Strategy.dijkstra
    ∧ (chosenStrategy o2 DEFAULTS_NODE = Strategy.unweighted
        ↔ (resolveDefaults o2 DEFAULTS_NODE).getEdgeWeight.truthy = false)
    ∧ (chosenStrategy o2 DEFAULTS_EDGE = Strategy.unweighted
        ↔ (resolveDefaults o2 DEFAULTS_EDGE).getEdgeWeight.truthy = false) := by
  have hres : ∀ d : ResolvedOptions, d.getEdgeWeight = JSWeight.attr "weight" →
      (resolveDefaults o d).getEdgeWeight = JSWeight.attr "weight" := by
    intro d hd
    simp only [resolveDefaults, h]
    exact hd
  have hiff : ∀ d : ResolvedOptions,
      chosenStrategy o2 d = Strategy.unweighted
        ↔ (resolveDefaults o2 d).getEdgeWeight.truthy = false := by
    intro d
    unfold chosenStrategy
    cases htr : (resolveDefaults o2 d).getEdgeWeight.truthy <;> simp [htr]
  have hn := hres DEFAULTS_NODE rfl
  have he := hres DEFAULTS_EDGE rfl
  refine ⟨hn, he, ?_, ?_, hiff DEFAULTS_NODE, hiff DEFAULTS_EDGE⟩
  · unfold chosenStrategy
    rw [hn]
    decide
  · unfold chosenStrategy
    rw [he]
    decide

/-- Witness for the amended C1 theorem at the empty options object. -/
theorem default_weight_selects_dijkstra_witness :
    (InputOptions.getEdgeWeight ⟨.absent, .absent, .absent⟩ = JSWeight.absent)
    ∧ ((resolveDefaults ⟨.absent, .absent, .absent⟩ DEFAULTS_NODE).getEdgeWeight
          = JSWeight.attr "weight"
       ∧ (resolveDefaults ⟨.absent, .absent, .absent⟩ DEFAULTS_EDGE).getEdgeWeight
          = JSWeight.attr "weight"
       ∧ chosenStrategy ⟨.absent, .absent, .absent⟩ DEFAULTS_NODE = Strategy.dijkstra
       ∧ chosenStrategy ⟨.absent, .absent, .absent⟩ DEFAULTS_EDGE = Strategy.dijkstra
       ∧ (chosenStrategy ⟨.absent, .absent, .absent⟩ DEFAULTS_NODE = Strategy.unweighted
            ↔ (resolveDefaults ⟨.absent, .absent, .absent⟩ DEFAULTS_NODE).getEdgeWeight.truthy
                = false)
       ∧ (chosenStrategy ⟨.absent, .absent, .absent⟩ DEFAULTS_EDGE = Strategy.unweighted
            ↔ (resolveDefaults ⟨.absent, .absent, .absent⟩ DEFAULTS_EDGE).getEdgeWeight.truthy
                = false)) :=
  ⟨rfl, default_weight_selects_dijkstra ⟨.absent, .absent, .absent⟩
      ⟨.absent, .absent, .absent⟩ rfl⟩

/-- C7: the delta-reset loop evaluated at the failing input — the stack
storage is `[0, 1]` with two live entries, so node index 0 occupies the
live position `S.items[0]`, yet its delta entry is left at its stale
value 1 (the loop resets storage positions `1..S.size` instead of
`0..S.size-1`, reading one slot past the live region). -/
theorem resetDelta_skips_first_item :
    0 ∈ List.take 2 [0, 1] ∧ resetDelta 2 [0, 1] 2 (fun _ => (1 : ℚ)) 0 = 1 := by
  constructor
  · decide
  · rfl

/-- C8: for every input that is not a graph handle, all four exported
variants fail with the invalid-graph error, independently of the
options, the indexer collaborators and the projection mode — so the
error is raised before option resolution, indexer construction or
accumulation, and (the embedding being pure) the input is untouched. -/
theorem invalid_graph_rejected (t : ℕ) (o : InputOptions)
    (ui : GraphHandle → ℕ → Traversal) (di : GraphHandle → JSWeight → ℕ → Traversal) :
    betweennessCentrality (.nonGraph t) o ui di = .error invalidGraphMessage
    ∧ betweennessCentrality.assign (.nonGraph t) o ui di = .error invalidGraphMessage
    ∧ edgeBetweennessCentrality (.nonGraph t) o ui di = .error invalidGraphMessage
    ∧ edgeBetweennessCentrality.assign (.nonGraph t) o ui di = .error invalidGraphMessage :=
  ⟨rfl, rfl, rfl, rfl⟩

/-- Property reads at the written key after `objSet`. -/
lemma objSet_apply_self (m : EdgeMap) (k : Option ℕ) (v : JSNum) :
    objSet m k v k = some v := by
  simp [objSet]

/-- Property reads at other keys after `objSet`. -/
lemma objSet_apply_ne (m : EdgeMap) (k k2 : Option ℕ) (v : JSNum) (h : k2 ≠ k) :
    objSet m k v k2 = m k2 := by
  simp [objSet, h]

/-- The initialization fold leaves keys it never writes untouched. -/
lemma foldl_init_preserve :
    ∀ (l : List ℕ) (m : EdgeMap) (k : Option ℕ), (∀ e ∈ l, k ≠ some e) →
      l.foldl (fun m e => objSet m (some e) (some 0)) m k = m k := by
  intro l
  induction l with
  | nil =>
    intro m k _
    rfl
  | cons b t ih =>
    intro m k h
    simp only [List.foldl_cons]
    rw [ih _ _ (fun e he => h e (List.mem_cons_of_mem b he)),
      objSet_apply_ne _ _ _ _ (h b (List.mem_cons_self b t))]

/-- The initialization fold sets every listed edge key to `0.0`. -/
lemma foldl_init_mem :
    ∀ (l : List ℕ) (m : EdgeMap) (e : ℕ), e ∈ l →
      l.foldl (fun m e2 => objSet m (some e2) (some 0)) m (some e) = some (some 0) := by
  intro l
  induction l with
  | nil =>
    intro m e he
    simp at he
  | cons b t ih =>
    intro m e he
    simp only [List.foldl_cons]
    by_cases het : e ∈ t
    · exact ih _ _ het
    · have heb : e = b := by
        rcases List.mem_cons.mp he with h | h
        · exact h
        · exact absurd h het
      subst heb
      rw [foldl_init_preserve t _ _ ?_, objSet_apply_self]
      intro e2 he2 hcon
      exact het (by rw [Option.some.inj hcon]; exact he2)

/-- Every edge of the graph is initialized to `0.0`. -/
lemma initEdgeCentralities_apply (g : GraphHandle) (e : ℕ) (he : e ∈ g.edges) :
    initEdgeCentralities g (some e) = some (some 0) :=
  foldl_init_mem g.edges _ e he

/-- `addAssign` keeps numeric keys numeric (at the written key the value
becomes the numeric sum, at others it is untouched). -/
lemma numericAt_addAssign (m : EdgeMap) (k : Option ℕ) (c : ℚ) (e : ℕ)
    (h : numericAt m e) : numericAt (addAssign m k c) e := by
  obtain ⟨q, hq⟩ := h
  by_cases hk : (some e : Option ℕ) = k
  · subst hk
    exact ⟨q + c, by simp [addAssign, objSet, hq]⟩
  · exact ⟨q, by rw [addAssign_apply_ne _ _ _ _ hk]; exact hq⟩

/-- The per-predecessor body of the edge accumulator keeps numeric keys
numeric. -/
lemma numericAt_edgePredBody (g : GraphHandle) (sigma : ℕ → ℚ) (co : ℚ) (w : ℕ)
    (st : (ℕ → ℚ) × EdgeMap) (v e : ℕ) (h : numericAt st.2 e) :
    numericAt (edgePredBody g sigma co w st v).2 e := by
  have hrw : (edgePredBody g sigma co w st v).2
      = if g.edge (g.nodes v) (g.nodes w) = none
        then addAssign st.2 (g.edge (g.nodes w) (g.nodes v)) (sigma v * co)
        else addAssign st.2 (g.edge (g.nodes v) (g.nodes w)) (sigma v * co) := rfl
  rw [hrw]
  split <;> exact numericAt_addAssign _ _ _ _ h

/-- The predecessor loop of the edge accumulator keeps numeric keys
numeric. -/
lemma numericAt_foldl_edgePredBody (g : GraphHandle) (sigma : ℕ → ℚ) (co : ℚ) (w : ℕ) :
    ∀ (l : List ℕ) (st : (ℕ → ℚ) × EdgeMap) (e : ℕ), numericAt st.2 e →
      numericAt (l.foldl (edgePredBody g sigma co w) st).2 e := by
  intro l
  induction l with
  | nil =>
    intro st e h
    exact h
  | cons b t ih =>
    intro st e h
    exact ih _ _ (numericAt_edgePredBody g sigma co w st b e h)

/-- The backward loop of the edge accumulator keeps numeric keys
numeric. -/
lemma numericAt_edgeBackward (g : GraphHandle) (P : ℕ → List ℕ) (sigma : ℕ → ℚ) :
    ∀ (l : List ℕ) (st : (ℕ → ℚ) × EdgeMap) (e : ℕ), numericAt st.2 e →
      numericAt (edgeBackward g P sigma l st).2 e := by
  intro l
  induction l with
  | nil =>
    intro st e h
    exact h
  | cons w rest ih =>
    intro st e h
    exact ih _ _ (numericAt_foldl_edgePredBody g sigma _ w (P w) st e h)

/-- A full source iteration of the edge accumulator keeps numeric keys
numeric. -/
lemma numericAt_edgeSourceIter (g : GraphHandle) (brandes : ℕ → Traversal)
    (st : (ℕ → ℚ) × EdgeMap) (i e : ℕ) (h : numericAt st.2 e) :
    numericAt (edgeSourceIter g brandes st i).2 e :=
  numericAt_edgeBackward g _ _ _ _ e h

/-- The source loop of the edge accumulator keeps numeric keys
numeric. -/
lemma numericAt_foldl_sourceIter (g : GraphHandle) (brandes : ℕ → Traversal) :
    ∀ (l : List ℕ) (st : (ℕ → ℚ) × EdgeMap) (e : ℕ), numericAt st.2 e →
      numericAt (l.foldl (edgeSourceIter g brandes) st).2 e := by
  intro l
  induction l with
  | nil =>
    intro st e h
    exact h
  | cons i rest ih =>
    intro st e h
    exact ih _ _ (numericAt_edgeSourceIter g brandes st i e h)

/-- The accumulated edge totals hold a numeric value at every edge of
the graph. -/
lemma numericAt_edgeTotals (g : GraphHandle) (brandes : ℕ → Traversal) (e : ℕ)
    (he : e ∈ g.edges) : numericAt (edgeTotals g brandes).2 e :=
  numericAt_foldl_sourceIter g brandes (List.range g.order) _ e
    ⟨0, initEdgeCentralities_apply g e he⟩

/-- The edge rescaling fold leaves keys it never writes untouched. -/
lemma foldl_scaleBody_preserve (s : ℚ) :
    ∀ (l : List ℕ) (m : EdgeMap) (k : Option ℕ), (∀ e2 ∈ l, k ≠ some e2) →
      l.foldl (edgeScaleBody s) m k = m k := by
  intro l
  induction l with
  | nil =>
    intro m k _
    rfl
  | cons b t ih =>
    intro m k h
    simp only [List.foldl_cons]
    rw [ih _ _ (fun e2 he2 => h e2 (List.mem_cons_of_mem b he2))]
    exact objSet_apply_ne _ _ _ _ (h b (List.mem_cons_self b t))

/-- The edge rescaling fold multiplies a numeric entry by the scale
exactly once when the edge list has no duplicates. -/
lemma foldl_scaleBody_apply (s : ℚ) :
    ∀ (l : List ℕ) (m : EdgeMap) (e : ℕ) (x : ℚ), l.Nodup → e ∈ l →
      m (some e) = some (some x) →
      l.foldl (edgeScaleBody s) m (some e) = some (some (x * s)) := by
  intro l
  induction l with
  | nil =>
    intro m e x _ he _
    simp at he
  | cons b t ih =>
    intro m e x hnd he hx
    have hbt : b ∉ t := (List.nodup_cons.mp hnd).1
    have hndt : t.Nodup := (List.nodup_cons.mp hnd).2
    simp only [List.foldl_cons]
    by_cases heb : e = b
    · subst heb
      rw [foldl_scaleBody_preserve s t _ _ ?_]
      · simp only [edgeScaleBody, hx, objSet_apply_self]
      · intro e2 he2 hcon
        exact hbt (by rw [Option.some.inj hcon]; exact he2)
    · have het : e ∈ t := by
        rcases List.mem_cons.mp he with h | h
        · exact absurd h heb
        · exact h
      apply ih _ _ _ hndt het
      rw [show edgeScaleBody s m b (some e) = m (some e) from
        objSet_apply_ne _ _ _ _ (by simp [heb])]
      exact hx

/-- Zero entries stay zero through the edge rescaling fold. -/
lemma foldl_scaleBody_zero (s : ℚ) :
    ∀ (l : List ℕ) (m : EdgeMap) (e : ℕ), m (some e) = some (some 0) →
      l.foldl (edgeScaleBody s) m (some e) = some (some 0) := by
  intro l
  induction l with
  | nil =>
    intro m e h
    exact h
  | cons b t ih =>
    intro m e h
    simp only [List.foldl_cons]
    apply ih
    by_cases heb : (some e : Option ℕ) = some b
    · have hb : m (some b) = some (some 0) := by rw [← heb]; exact h
      simp only [edgeScaleBody, heb, objSet_apply_self, hb, zero_mul]
    · simp only [edgeScaleBody]
      rw [objSet_apply_ne _ _ _ _ heb]
      exact h

/-- One step of the edge rescaling fold keeps numeric keys numeric. -/
lemma numericAt_edgeScaleBody (s : ℚ) (m : EdgeMap) (b e : ℕ) (h : numericAt m e) :
    numericAt (edgeScaleBody s m b) e := by
  obtain ⟨q, hq⟩ := h
  by_cases heb : (some e : Option ℕ) = some b
  · have hb : m (some b) = some (some q) := by rw [← heb]; exact hq
    exact ⟨q * s, by simp only [edgeScaleBody, heb, objSet_apply_self, hb]⟩
  · refine ⟨q, ?_⟩
    simp only [edgeScaleBody]
    rw [objSet_apply_ne _ _ _ _ heb]
    exact hq

/-- The edge rescaling fold keeps numeric keys numeric. -/
lemma numericAt_foldl_scaleBody (s : ℚ) :
    ∀ (l : List ℕ) (m : EdgeMap) (e : ℕ), numericAt m e →
      numericAt (l.foldl (edgeScaleBody s) m) e := by
  intro l
  induction l with
  | nil =>
    intro m e h
    exact h
  | cons b t ih =>
    intro m e h
    exact ih _ _ (numericAt_edgeScaleBody s m b e h)

/-- The optional-scale application of the edge accumulator keeps numeric
keys numeric. -/
lemma numericAt_scaleMatch (g : GraphHandle) (m : EdgeMap) (e : ℕ) (sc : Option ℚ)
    (h : numericAt m e) :
    numericAt (match sc with | some s => edgeScaleLoop g s m | none => m) e := by
  cases sc with
  | none => exact h
  | some s => exact numericAt_foldl_scaleBody s g.edges m e h

/-- The optional-scale application of the edge accumulator preserves
zero entries. -/
lemma scaleMatch_zero (g : GraphHandle) (m : EdgeMap) (e : ℕ) (sc : Option ℚ)
    (h : m (some e) = some (some 0)) :
    (match sc with | some s => edgeScaleLoop g s m | none => m) (some e)
      = some (some 0) := by
  cases sc with
  | none => exact h
  | some s => exact foldl_scaleBody_zero s g.edges m e h

/-- Characterization of the edge accumulator output at an edge holding
a numeric total: the total times the scale factor the code selects
(factor 1 where the code leaves values unscaled). -/
lemma edgeCore_eq_totals_mul (g : GraphHandle) (brandes : ℕ → Traversal) (normalized : Bool)
    (e : ℕ) (x : ℚ) (he : e ∈ g.edges) (hnd : g.edges.Nodup)
    (hx : (edgeTotals g brandes).2 (some e) = some (some x)) :
    edgeCore g brandes normalized (some e) =
      some (some (x *
        (if normalized then
           if 1 < g.order then 1 / ((g.order : ℚ) * ((g.order : ℚ) - 1)) else 1
         else if g.type = GraphType.undirected then (1 / 2 : ℚ) else 1))) := by
  unfold edgeCore
  cases normalized with
  | false =>
    by_cases hu : g.type = GraphType.undirected
    · simp only [Bool.false_eq_true, if_false, if_pos hu]
      exact foldl_scaleBody_apply (1 / 2) g.edges _ e x hnd he hx
    · simp only [Bool.false_eq_true, if_false, if_neg hu, mul_one]
      exact hx
  | true =>
    by_cases h1 : g.order ≤ 1
    · simp [h1, show ¬(1 < g.order) by omega, hx]
    · simp only [if_pos (show (true = true) from rfl), if_neg h1,
        if_pos (show 1 < g.order by omega)]
      exact foldl_scaleBody_apply _ g.edges _ e x hnd he hx


/-- C5: edge betweenness rescaling — when normalized, every edge total
is multiplied by `1 / (N(N-1))` if `N > 1` and left unscaled otherwise;
when raw, every edge total is multiplied by `0.5` if the graph is
undirected and left unscaled otherwise; the same factor is applied to
every edge of the (duplicate-free) edge enumeration. -/
theorem edgeCore_rescale_spec (g : GraphHandle) (brandes : ℕ → Traversal) (normalized : Bool)
    (e : ℕ) (x : ℚ) (he : e ∈ g.edges) (hnd : g.edges.Nodup)
    (hx : (edgeTotals g brandes).2 (some e) = some (some x)) :
    edgeCore g brandes normalized (some e) =
      some (some (x *
        (if normalized then
           if 1 < g.order then 1 / ((g.order : ℚ) * ((g.order : ℚ) - 1)) else 1
         else if g.type = GraphType.undirected then (1 / 2 : ℚ) else 1))) :=
  edgeCore_eq_totals_mul g brandes normalized e x he hnd hx

/-- Witness for the C5 theorem on the concrete path graph, whose edge 0
accumulates the raw total 4. -/
theorem edgeCore_rescale_spec_witness :
    (0 ∈ pathGraph3.edges) ∧ pathGraph3.edges.Nodup
    ∧ (edgeTotals pathGraph3 pathBrandes3).2 (some 0) = some (some 4)
    ∧ edgeCore pathGraph3 pathBrandes3 true (some 0) =
        some (some ((4 : ℚ) *
          (if (true : Bool) then
             if 1 < pathGraph3.order then
               1 / ((pathGraph3.order : ℚ) * ((pathGraph3.order : ℚ) - 1))
             else 1
           else if pathGraph3.type = GraphType.undirected then (1 / 2 : ℚ) else 1))) := by
  have hx : (edgeTotals pathGraph3 pathBrandes3).2 (some 0) = some (some 4) := by
    norm_num [edgeTotals, edgeSourceIter, edgeBackward, edgeStep, edgePredBody, addAssign,
      objSet, initEdgeCentralities, updTA, resetDelta, popOrder,
      pathBrandes3, pathGraph3, List.range_succ]
  exact ⟨by decide, by decide, hx,
    edgeCore_rescale_spec pathGraph3 pathBrandes3 true 0 4 (by decide) (by decide) hx⟩

/-- C6: every edge of the graph has its centrality total initialized to
`0.0` before any source iteration; every edge is present (with a
numeric value) in the final result mapping; and an edge whose
accumulated total is zero keeps the value zero in the final mapping. -/
theorem edge_totals_initialized (g : GraphHandle) (brandes : ℕ → Traversal)
    (normalized : Bool) (e : ℕ) (he : e ∈ g.edges) :
    initEdgeCentralities g (some e) = some (some 0)
    ∧ (∃ q : ℚ, edgeCore g brandes normalized (some e) = some (some q))
    ∧ ((edgeTotals g brandes).2 (some e) = some (some 0) →
        edgeCore g brandes normalized (some e) = some (some 0)) := by
  refine ⟨initEdgeCentralities_apply g e he, ?_, ?_⟩
  · exact numericAt_scaleMatch g (edgeTotals g brandes).2 e _
      (numericAt_edgeTotals g brandes e he)
  · intro h0
    exact scaleMatch_zero g (edgeTotals g brandes).2 e _ h0

/-- Witness for the C6 theorem on the concrete path graph. -/
theorem edge_totals_initialized_witness :
    (0 ∈ pathGraph3.edges)
    ∧ (initEdgeCentralities pathGraph3 (some 0) = some (some 0)
       ∧ (∃ q : ℚ, edgeCore pathGraph3 pathBrandes3 true (some 0) = some (some q))
       ∧ ((edgeTotals pathGraph3 pathBrandes3).2 (some 0) = some (some 0) →
           edgeCore pathGraph3 pathBrandes3 true (some 0) = some (some 0))) :=
  ⟨by decide, edge_totals_initialized pathGraph3 pathBrandes3 true 0 (by decide)⟩

/-- C9 counterexample: on the undirected path graph `0 - 1 - 2`, the raw
(unnormalized) node output at node 1 is `1` (the accumulated sum `2`
already halved by the undirected raw factor `0.5`), so multiplying it
by the documented normalization factor `1 / ((N-1)(N-2)) = 1/2` yields
`1/2`, while the normalized output is `1`. -/
theorem rescale_claim_counterexample :
    ¬ (nodeCore pathGraph3 pathBrandes3 false 1 *
          (1 / (((pathGraph3.order : ℚ) - 1) * ((pathGraph3.order : ℚ) - 2)))
        = nodeCore pathGraph3 pathBrandes3 true 1) := by
  have hraw : (nodeSums pathGraph3 pathBrandes3).2 1 = 2 := by
    norm_num [nodeSums, nodeBackward, nodeStep, nodePredBody, updTA, resetDelta, popOrder,
      pathBrandes3, pathGraph3, List.range_succ]
  have hf : nodeCore pathGraph3 pathBrandes3 false 1 = 1 := by
    rw [nodeCore_eq_sums_mul pathGraph3 pathBrandes3 false 1 (by decide), hraw]
    norm_num [pathGraph3]
  have ht : nodeCore pathGraph3 pathBrandes3 true 1 = 1 := by
    rw [nodeCore_eq_sums_mul pathGraph3 pathBrandes3 true 1 (by decide), hraw]
    norm_num [pathGraph3]
  rw [hf, ht]
  norm_num [pathGraph3]

/-- C9 (amended): the unscaled accumulated sums times the documented
normalization factor equal the normalized output; since the raw
(normalized = false) output of an undirected graph already carries the
raw factor `0.5`, the raw output must additionally be multiplied by `2`
to recover that relation — for directed (and mixed) graphs the claim
holds as stated, with adjustment factor 1. -/
theorem rescale_consistency (g : GraphHandle) (brN brE : ℕ → Traversal)
    (k e : ℕ) (x : ℚ) (hk : k < g.order) (he : e ∈ g.edges) (hnd : g.edges.Nodup)
    (hx : (edgeTotals g brE).2 (some e) = some (some x)) :
    nodeCore g brN false k *
        ((if g.type = GraphType.undirected then (2 : ℚ) else 1) *
          (if 2 < g.order then 1 / (((g.order : ℚ) - 1) * ((g.order : ℚ) - 2)) else 1))
      = nodeCore g brN true k
    ∧ ∃ y z : ℚ,
        edgeCore g brE false (some e) = some (some y)
        ∧ edgeCore g brE true (some e) = some (some z)
        ∧ y * ((if g.type = GraphType.undirected then (2 : ℚ) else 1) *
              (if 1 < g.order then 1 / ((g.order : ℚ) * ((g.order : ℚ) - 1)) else 1))
            = z := by
  constructor
  · rw [nodeCore_eq_sums_mul g brN false k hk, nodeCore_eq_sums_mul g brN true k hk]
    by_cases hu : g.type = GraphType.undirected <;> simp [hu] <;> ring
  · refine ⟨x * (if g.type = GraphType.undirected then (1 / 2 : ℚ) else 1),
      x * (if 1 < g.order then 1 / ((g.order : ℚ) * ((g.order : ℚ) - 1)) else 1),
      ?_, ?_, ?_⟩
    · have h := edgeCore_eq_totals_mul g brE false e x he hnd hx
      simpa using h
    · have h := edgeCore_eq_totals_mul g brE true e x he hnd hx
      simpa using h
    · by_cases hu : g.type = GraphType.undirected <;> simp [hu] <;> ring

/-- Witness for the amended C9 theorem on the concrete path graph. -/
theorem rescale_consistency_witness :
    (1 < pathGraph3.order) ∧ (0 ∈ pathGraph3.edges) ∧ pathGraph3.edges.Nodup
    ∧ (edgeTotals pathGraph3 pathBrandes3).2 (some 0) = some (some 4)
    ∧ (nodeCore pathGraph3 pathBrandes3 false 1 *
          ((if pathGraph3.type = GraphType.undirected then (2 : ℚ) else 1) *
            (if 2 < pathGraph3.order then
               1 / (((pathGraph3.order : ℚ) - 1) * ((pathGraph3.order : ℚ) - 2))
             else 1))
        = nodeCore pathGraph3 pathBrandes3 true 1
       ∧ ∃ y z : ℚ,
           edgeCore pathGraph3 pathBrandes3 false (some 0) = some (some y)
           ∧ edgeCore pathGraph3 pathBrandes3 true (some 0) = some (some z)
           ∧ y * ((if pathGraph3.type = GraphType.undirected then (2 : ℚ) else 1) *
                 (if 1 < pathGraph3.order then
                    1 / ((pathGraph3.order : ℚ) * ((pathGraph3.order : ℚ) - 1))
                  else 1))
               = z) := by
  have hx : (edgeTotals pathGraph3 pathBrandes3).2 (some 0) = some (some 4) := by
    norm_num [edgeTotals, edgeSourceIter, edgeBackward, edgeStep, edgePredBody, addAssign,
      objSet, initEdgeCentralities, updTA, resetDelta, popOrder,
      pathBrandes3, pathGraph3, List.range_succ]
  exact ⟨by decide, by decide, by decide, hx,
    rescale_consistency pathGraph3 pathBrandes3 pathBrandes3 1 0 4
      (by decide) (by decide) (by decide) hx⟩
